import Mathlib

/-!
Shallow embedding of the training-support utilities in `utils.py`
(checkpoint store, feature-vector binary I/O, AverageMeter, normalize,
image saving), together with theorems settling the specification claims.

Conventions of the embedding:
* A Python dict is an association list with unique keys.
* File-system access is abstracted: a function receives the content at a
  path as `Option` (the `none` case models a missing file) and returns the
  content it would write.
* A raised Python exception is the `Except.error` case, tagged by the
  exception class; an `assert` failure is `Err.assertionError`.
* Python ints are `Int`, float arithmetic is idealised as `Rat`.
-/

namespace HFSoftmax

/-- Exception classes observable from the utility functions. -/
inductive Err where
  | assertionError (msg : String)
  | keyError (key : String)
  | cannotFind (key : String)
  | valueError (msg : String)
  | runtimeError (msg : String)
  | attributeError (msg : String)
  deriving DecidableEq, Repr

/-- A state_dict: mapping from parameter name to a (numeric) tensor,
abstracted to an identifier. -/
abbrev StateDict := List (String × Nat)

/-- A top-level checkpoint value: either a nested dict (the state_dict) or
an atomic payload (epoch, best_prec1, optimizer state, ...). -/
inductive CVal where
  | dict (d : StateDict)
  | scalar (n : Int)
  deriving DecidableEq, Repr

/-- A checkpoint: a dict from top-level key to value. -/
abbrev Ckpt := List (String × CVal)

/-- Python `checkpoint[k]`: KeyError when the key is absent. -/
def ckptGet (c : Ckpt) (k : String) : Except Err CVal :=
  match c.lookup k with
  | some v => Except.ok v
  | none => Except.error (Err.keyError k)

/-- Python `checkpoint[k].keys()`-style access that requires the value to
be a dict (AttributeError on a non-dict value, KeyError when absent). -/
def ckptGetDict (c : Ckpt) (k : String) : Except Err StateDict :=
  match c.lookup k with
  | some (CVal.dict d) => Except.ok d
  | some (CVal.scalar _) => Except.error (Err.attributeError k)
  | none => Except.error (Err.keyError k)

/-- In-place replacement of the value stored under `state_dict`. -/
def ckptSetDict (c : Ckpt) (sd : StateDict) : Ckpt :=
  c.map (fun p => if p.1 = "state_dict" then ("state_dict", CVal.dict sd) else p)

/-- Keys of a state_dict, in insertion order. -/
def sdKeys (sd : StateDict) : List String := sd.map Prod.fst

/-- The ignore loop shared by `load_ckpt` (utils.py lines 91-98) and
`simplify_ckpt` (lines 128-138): `snapshot` is the key set computed once
before the loop (`keys = set(checkpoint[state_dict].keys())`); each ignore
name is checked against that snapshot, then deleted from the live dict
(`del` raises KeyError when the entry is already gone), else the loop
raises `ValueError(cannot find ... in load_path)`. -/
def dropIgnores (sd : StateDict) (snapshot : List String) :
    List String → Except Err StateDict
  | [] => Except.ok sd
  | ig :: rest =>
    if ig ∈ snapshot then
      match sd.lookup ig with
      | some _ => dropIgnores (sd.filter (fun p => p.1 ≠ ig)) snapshot rest
      | none => Except.error (Err.keyError ig)
    else
      Except.error (Err.cannotFind ig)

/-- PyTorch `model.load_state_dict(sd, strict=strict)`: in strict mode the
checkpoint keys and the model keys must coincide (RuntimeError otherwise);
matching parameters are overwritten, and in lenient mode mismatches are
only reported. -/
def load_state_dict (model sd : StateDict) (strict : Bool) :
    Except Err StateDict :=
  if strict && !((sdKeys sd).all (sdKeys model).contains &&
                 (sdKeys model).all (sdKeys sd).contains) then
    Except.error (Err.runtimeError "state_dict key mismatch")
  else
    Except.ok (model.map (fun p =>
      match sd.lookup p.1 with
      | some v => (p.1, v)
      | none => p))

/-- `load_ckpt(path, model, ignores, strict, optimizer)` (utils.py 82-112).
`file` is the content found at `path` (`none` when `os.path.isfile` is
false). `optimizer` abstracts the optional optimizer object. On success
returns the updated model parameters and, exactly when an optimizer was
supplied, the `(epoch, best_prec1)` metadata. -/
def load_ckpt (path : String) (file : Option Ckpt) (model : StateDict)
    (ignores : List String) (strict : Bool) (optimizer : Option Nat) :
    Except Err (StateDict × Option (CVal × CVal)) :=
  match file with
  | none => Except.error (Err.assertionError ("no checkpoint found at " ++ path))
  | some checkpoint =>
    let step1 : Except Err Ckpt :=
      if ignores.length > 0 then
        if optimizer.isSome then
          Except.error (Err.assertionError "optimizer == None")
        else
          match ckptGetDict checkpoint "state_dict" with
          | Except.error e => Except.error e
          | Except.ok sd =>
            match dropIgnores sd (sdKeys sd) ignores with
            | Except.error e => Except.error e
            | Except.ok sd2 => Except.ok (ckptSetDict checkpoint sd2)
      else Except.ok checkpoint
    match step1 with
    | Except.error e => Except.error e
    | Except.ok ckpt2 =>
      match ckptGetDict ckpt2 "state_dict" with
      | Except.error e => Except.error e
      | Except.ok sd =>
        match load_state_dict model sd strict with
        | Except.error e => Except.error e
        | Except.ok model2 =>
          match optimizer with
          | none => Except.ok (model2, none)
          | some _ =>
            if ignores.length ≠ 0 then
              Except.error (Err.assertionError "len(ignores) == 0")
            else
              match ckptGet ckpt2 "optimizer" with
              | Except.error e => Except.error e
              | Except.ok _ =>
                match ckptGet ckpt2 "epoch", ckptGet ckpt2 "best_prec1" with
                | Except.ok ep, Except.ok bp =>
                  Except.ok (model2, some (ep, bp))
                | Except.error e, _ => Except.error e
                | _, Except.error e => Except.error e

/-- `simplify_ckpt(path, opath, ignores)` (utils.py 115-144). Every
top-level key other than `state_dict` is deleted; the ignore loop then
always runs (`len(ignores) >= 0` is vacuously true) against
`checkpoint[state_dict]`; the result is written to `opath`, defaulting to
`path + "_simplified"` when `opath` is the empty string. Returns the
output path and the checkpoint written there. -/
def simplify_ckpt (path : String) (file : Option Ckpt) (opath : String)
    (ignores : List String) : Except Err (String × Ckpt) :=
  match file with
  | none => Except.error (Err.assertionError ("no checkpoint found at " ++ path))
  | some checkpoint =>
    let checkpoint := checkpoint.filter (fun p => p.1 = "state_dict")
    match ckptGetDict checkpoint "state_dict" with
    | Except.error e => Except.error e
    | Except.ok sd =>
      match dropIgnores sd (sdKeys sd) ignores with
      | Except.error e => Except.error e
      | Except.ok sd2 =>
        let out := if opath = "" then path ++ "_simplified" else opath
        Except.ok (out, ckptSetDict checkpoint sd2)

/-- Whether an `Except` computation failed. -/
def isErr {ε α : Type} : Except ε α → Bool
  | Except.error _ => true
  | Except.ok _ => false

/-- `np.mean` over a list of (idealised) floats. -/
def npMean (l : List ℚ) : ℚ := l.sum / (l.length : ℚ)

/-- `AverageMeter` (utils.py 30-47): bounded history plus the cached
current value and window average. -/
structure AverageMeter where
  length : Nat
  history : List ℚ
  val : ℚ
  avg : ℚ
  deriving DecidableEq, Repr

/-- `AverageMeter(length)`: the constructor calls `reset()`, which clears
the history and zeroes `val` and `avg`. -/
def AverageMeter.mk0 (length : Nat) : AverageMeter :=
  { length := length, history := [], val := 0, avg := 0 }

/-- `AverageMeter.update(val)` (utils.py 41-47): append, evict the oldest
entry when the history exceeds `length` (`del history[0]`), then recompute
`val = history[-1]` and `avg = np.mean(history)`. Indexing `history[-1]`
on an empty history raises IndexError, modelled as `none`. -/
def AverageMeter.update (m : AverageMeter) (v : ℚ) : Option AverageMeter :=
  let h1 := m.history ++ [v]
  let h2 := if h1.length > m.length then h1.tail else h1
  match h2.getLast? with
  | none => none
  | some last =>
    some { m with history := h2, val := last, avg := npMean h2 }

/-- Feed a sequence of values to `update`, left to right. -/
def runUpdates (m : AverageMeter) : List ℚ → Option AverageMeter
  | [] => some m
  | v :: vs =>
    match m.update v with
    | some m1 => runUpdates m1 vs
    | none => none

/-- A numpy array of one or two dimensions. -/
inductive NDArr (α : Type) where
  | vec (v : List α)
  | mat (m : List (List α))
  deriving DecidableEq, Repr

/-- Split a flat list into consecutive chunks of `n` elements (row-major
reshape). -/
def chunkList {α : Type} (n : Nat) : List α → List (List α)
  | [] => []
  | x :: xs =>
    if n = 0 then []
    else (x :: xs).take n :: chunkList n ((x :: xs).drop n)
termination_by l => l.length
decreasing_by
  simp only [List.length_drop, List.length_cons]
  omega

/-- `np.fromfile(path, dtype, count)`: with a negative count the whole
file is read; otherwise up to `count` elements are read — numpy silently
returns fewer when the file is shorter. `file` is the file content as a
list of already-decoded elements. -/
def np_fromfile {α : Type} (file : List α) (count : Int) : List α :=
  if count < 0 then file else file.take count.toNat

/-- `arr.reshape(rows, cols)` for a flat array: a row count of `-1` is
inferred from the length (ValueError when not divisible); otherwise the
length must equal `rows * cols` exactly. -/
def np_reshape2 {α : Type} (l : List α) (rows cols : Int) :
    Except Err (List (List α)) :=
  if rows = -1 then
    if 0 < cols ∧ (cols.toNat ∣ l.length) then
      Except.ok (chunkList cols.toNat l)
    else
      Except.error (Err.valueError "cannot reshape")
  else if 0 ≤ rows ∧ 0 < cols ∧ l.length = rows.toNat * cols.toNat then
    Except.ok (chunkList cols.toNat l)
  else
    Except.error (Err.valueError "cannot reshape")

/-- `read_feat(path, inst_num, feat_dim, dtype)` (utils.py 202-212):
assert the argument contract, read `inst_num * feat_dim` elements (all of
the file when `inst_num == -1`), and reshape to a matrix when
`feat_dim > 1`, else keep the flat vector. -/
def read_feat {α : Type} (file : List α) (inst_num feat_dim : Int) :
    Except Err (NDArr α) :=
  if ¬((inst_num > 0 ∨ inst_num = -1) ∧ feat_dim > 0) then
    Except.error (Err.assertionError "inst_num/feat_dim contract")
  else
    let count : Int := if inst_num > 0 then inst_num * feat_dim else -1
    let probs := np_fromfile file count
    if feat_dim > 1 then
      match np_reshape2 probs inst_num feat_dim with
      | Except.error e => Except.error e
      | Except.ok m => Except.ok (NDArr.mat m)
    else
      Except.ok (NDArr.vec probs)

/-- `write_feat(ofn, features)` (utils.py 215-217): `tofile` serialises
the matrix elements row-major with no header; the resulting file content
is the flattened matrix. -/
def write_feat {α : Type} (features : List (List α)) : List α :=
  features.flatten

/-- Matrix transpose of a rectangular (numpy) 2-D array. -/
def np_transpose {α : Type} : List (List α) → List (List α)
  | [] => []
  | r :: rs =>
    match np_transpose rs with
    | [] => r.map (fun x => [x])
    | cols => List.zipWith List.cons r cols

/-- `normalize(feat, axis)` (utils.py 147-153): a 1-D input is divided by
its own norm regardless of `axis`; a 2-D input is divided by the per-column
norms for `axis == 0` and the per-row norms for `axis == 1`; any other
axis falls off the end of the function, returning Python `None` — the
`raise TypeError` intended for that branch is stranded in `save_imgs`.
`norm` abstracts the library function `np.linalg.norm` along one axis. -/
def normalize {α : Type} [Div α] (norm : List α → α) (feat : NDArr α)
    (axis : Int) : Option (NDArr α) :=
  match feat with
  | NDArr.vec v => some (NDArr.vec (v.map (fun x => x / norm v)))
  | NDArr.mat m =>
    if axis = 0 then
      some (NDArr.mat (m.map (fun row =>
        List.zipWith (fun x c => x / c) row ((np_transpose m).map norm))))
    else if axis = 1 then
      some (NDArr.mat (m.map (fun row => row.map (fun x => x / norm row))))
    else
      none

/-- `save_imgs(imgs, ofolder)` (utils.py 179-190): each image `i` is
written to `ofolder/i.jpg`; the `for` loop carries an `else` clause that
runs whenever the loop finishes without `break` — always here — and its
`raise TypeError(...(axis))` references a name `axis` that does not exist
in this function, so the call raises NameError after writing the files.
The result pairs the list of (path, image) writes with the exception
raised afterwards. -/
def save_imgs {α : Type} (imgs : List α) (ofolder : String) :
    List (String × α) × Option String :=
  (imgs.enum.map (fun p => (ofolder ++ "/" ++ toString p.1 ++ ".jpg", p.2)),
   some "NameError: name axis is not defined")

/-- The last (at most) `n` elements of a list: the retained sliding
window of an `AverageMeter`. -/
def lastN {α : Type} (n : Nat) (l : List α) : List α :=
  l.drop (l.length - n)

/-! ### Helper lemmas about dict operations -/

lemma lookup_isSome_iff (sd : StateDict) (k : String) :
    (sd.lookup k).isSome = true ↔ k ∈ sdKeys sd := by
  induction sd with
  | nil => simp [sdKeys]
  | cons p rest ih =>
    obtain ⟨k', v⟩ := p
    by_cases h : k = k'
    · subst h
      simp [List.lookup_cons, sdKeys]
    · have hbeq : (k == k') = false := by simp [h]
      rw [List.lookup_cons, hbeq]
      show (rest.lookup k).isSome = true ↔ _
      rw [ih]
      simp [sdKeys, h]

lemma sdKeys_filter_ne (sd : StateDict) (ig : String) (k : String)
    (hk : k ∈ sdKeys sd) (hne : k ≠ ig) :
    k ∈ sdKeys (sd.filter (fun p => p.1 ≠ ig)) := by
  simp only [sdKeys, List.mem_map] at hk ⊢
  obtain ⟨p, hp, hpk⟩ := hk
  exact ⟨p, List.mem_filter.mpr ⟨hp, by simp [hpk, hne]⟩, hpk⟩

/-- The ignore loop succeeds and removes exactly the ignored keys when the
ignore names are distinct and all present in both the snapshot and the
live dict. -/
lemma dropIgnores_ok (ignores : List String) (sd : StateDict)
    (snapshot : List String) (hnd : ignores.Nodup)
    (hmem : ∀ ig ∈ ignores, ig ∈ snapshot)
    (hpres : ∀ ig ∈ ignores, ig ∈ sdKeys sd) :
    dropIgnores sd snapshot ignores =
      Except.ok (sd.filter (fun p => decide (p.1 ∉ ignores))) := by
  induction ignores generalizing sd with
  | nil => simp [dropIgnores]
  | cons ig rest ih =>
    have hin : ig ∈ snapshot := hmem ig (by simp)
    have hkey : ig ∈ sdKeys sd := hpres ig (by simp)
    have hsome : (sd.lookup ig).isSome = true := (lookup_isSome_iff sd ig).mpr hkey
    obtain ⟨v, hv⟩ := Option.isSome_iff_exists.mp hsome
    have hnotin : ig ∉ rest := (List.nodup_cons.mp hnd).1
    rw [dropIgnores, if_pos hin]
    simp only [hv]
    rw [ih (sd.filter (fun p => p.1 ≠ ig)) (List.nodup_cons.mp hnd).2
        (fun x hx => hmem x (List.mem_cons_of_mem ig hx))
        (fun x hx => sdKeys_filter_ne sd ig x (hpres x (List.mem_cons_of_mem ig hx))
          (fun he => hnotin (he ▸ hx)))]
    rw [List.filter_filter]
    congr 1
    apply List.filter_congr
    intro p _
    by_cases h1 : p.1 = ig <;> by_cases h2 : p.1 ∈ rest <;>
      simp [h1, h2, List.mem_cons]

/-- The ignore loop fails with `ValueError(cannot find ...)` naming a
missing key when some ignore name is absent from the snapshot. -/
lemma dropIgnores_missing (ignores : List String) (sd : StateDict)
    (snapshot : List String) (hnd : ignores.Nodup)
    (hpres : ∀ ig ∈ ignores, ig ∈ snapshot → ig ∈ sdKeys sd)
    (hbad : ∃ ig ∈ ignores, ig ∉ snapshot) :
    ∃ k, k ∈ ignores ∧ k ∉ snapshot ∧
      dropIgnores sd snapshot ignores = Except.error (Err.cannotFind k) := by
  induction ignores generalizing sd with
  | nil => simp at hbad
  | cons ig rest ih =>
    by_cases hin : ig ∈ snapshot
    · have hkey : ig ∈ sdKeys sd := hpres ig (by simp) hin
      have hsome : (sd.lookup ig).isSome = true := (lookup_isSome_iff sd ig).mpr hkey
      obtain ⟨v, hv⟩ := Option.isSome_iff_exists.mp hsome
      have hnotin : ig ∉ rest := (List.nodup_cons.mp hnd).1
      have hbad2 : ∃ x ∈ rest, x ∉ snapshot := by
        obtain ⟨x, hx, hxs⟩ := hbad
        rcases List.mem_cons.mp hx with h | h
        · exact absurd hin (h ▸ hxs)
        · exact ⟨x, h, hxs⟩
      obtain ⟨k, hk1, hk2, hk3⟩ := ih (sd.filter (fun p => p.1 ≠ ig))
        (List.nodup_cons.mp hnd).2
        (fun x hx hxs => sdKeys_filter_ne sd ig x
          (hpres x (List.mem_cons_of_mem ig hx) hxs)
          (fun he => hnotin (he ▸ hx)))
        hbad2
      refine ⟨k, List.mem_cons_of_mem ig hk1, hk2, ?_⟩
      rw [dropIgnores, if_pos hin, hv]
      exact hk3
    · exact ⟨ig, by simp, hin, by rw [dropIgnores, if_neg hin]⟩

lemma lookup_ckptSetDict (c : Ckpt) (sd2 : StateDict)
    (h : (c.lookup "state_dict").isSome = true) :
    (ckptSetDict c sd2).lookup "state_dict" = some (CVal.dict sd2) := by
  induction c with
  | nil => simp [List.lookup] at h
  | cons p rest ih =>
    obtain ⟨k, v⟩ := p
    by_cases hk : k = "state_dict"
    · subst hk
      simp [ckptSetDict, List.lookup_cons]
    · have hbeq : ("state_dict" == k) = false := by simp [Ne.symm hk]
      rw [List.lookup_cons, hbeq] at h
      simp only [ckptSetDict, List.map_cons, if_neg hk]
      rw [List.lookup_cons, hbeq]
      exact ih h

lemma lookup_filter_key (c : Ckpt) (k : String) :
    (c.filter (fun p => p.1 = k)).lookup k = c.lookup k := by
  induction c with
  | nil => rfl
  | cons p rest ih =>
    obtain ⟨k', v⟩ := p
    by_cases h : k' = k
    · subst h
      simp [List.filter_cons, List.lookup_cons]
    · have hbeq : (k == k') = false := by simp [Ne.symm h]
      rw [List.filter_cons, if_neg (by simp [h]), ih, List.lookup_cons, hbeq]

lemma filter_key_nodup_eq (c : Ckpt) (k : String) (v : CVal)
    (hkeys : (c.map Prod.fst).Nodup) (h : c.lookup k = some v) :
    c.filter (fun p => p.1 = k) = [(k, v)] := by
  induction c with
  | nil => simp [List.lookup] at h
  | cons p rest ih =>
    obtain ⟨k', v'⟩ := p
    by_cases hk : k' = k
    · subst hk
      have hv : v' = v := by simpa [List.lookup_cons] using h
      subst hv
      have hnotin : k' ∉ rest.map Prod.fst := by
        simpa using (List.nodup_cons.mp hkeys).1
      rw [List.filter_cons, if_pos (by simp)]
      have hnil : rest.filter (fun p => p.1 = k') = [] :=
        List.filter_eq_nil_iff.mpr (fun p hp hpk => hnotin
          (List.mem_map.mpr ⟨p, hp, by simpa using hpk⟩))
      rw [hnil]
    · have hbeq : (k == k') = false := by simp [Ne.symm hk]
      rw [List.lookup_cons, hbeq] at h
      rw [List.filter_cons, if_neg (by simp [hk])]
      exact ih (List.nodup_cons.mp hkeys).2 h

lemma ckptGetDict_of_lookup (c : Ckpt) (sd : StateDict)
    (h : c.lookup "state_dict" = some (CVal.dict sd)) :
    ckptGetDict c "state_dict" = Except.ok sd := by
  simp [ckptGetDict, h]

/-! ### Claim theorems: checkpoint store -/

/-- C5: for every path that does not name an existing file (modelled as
`file = none`), `load_ckpt` fails, with the error reporting that no
checkpoint was found at the path. -/
theorem C5_load_ckpt_missing_file_fails (path : String) (model : StateDict)
    (ignores : List String) (strict : Bool) (optimizer : Option Nat) :
    load_ckpt path none model ignores strict optimizer =
      Except.error (Err.assertionError ("no checkpoint found at " ++ path)) :=
  rfl

/-- C2: whenever `ignores` is non-empty and an optimizer restore is also
requested, `load_ckpt` fails (the `assert optimizer == None` on line 90
fires before anything is loaded; a missing file fails even earlier). -/
theorem C2_ignores_excludes_optimizer (path : String) (file : Option Ckpt)
    (model : StateDict) (ignores : List String) (strict : Bool) (opt : Nat)
    (h : ignores ≠ []) :
    isErr (load_ckpt path file model ignores strict (some opt)) = true := by
  have hl : ignores.length > 0 := List.length_pos.mpr h
  cases file with
  | none => rfl
  | some c => simp [load_ckpt, hl, isErr]

/-- C2 witness. -/
theorem C2_witness :
    (["a"] : List String) ≠ [] ∧
    isErr (load_ckpt "p" (some []) [] ["a"] true (some 0)) = true :=
  ⟨by decide, C2_ignores_excludes_optimizer "p" (some []) [] ["a"] true 0
    (by decide)⟩

/-- C4: a successful `load_ckpt` returns the `(epoch, best_prec1)`
metadata exactly when an optimizer was supplied; with no optimizer no
value is returned. -/
theorem C4_metadata_iff_optimizer (path : String) (file : Option Ckpt)
    (model : StateDict) (ignores : List String) (strict : Bool)
    (optimizer : Option Nat) (m2 : StateDict) (r : Option (CVal × CVal))
    (h : load_ckpt path file model ignores strict optimizer =
      Except.ok (m2, r)) :
    r.isSome = optimizer.isSome := by
  cases file with
  | none => simp [load_ckpt] at h
  | some c =>
    unfold load_ckpt at h
    repeat' split at h
    all_goals simp_all
    all_goals repeat' split at h
    all_goals simp_all
    all_goals (obtain ⟨-, h2⟩ := h; simp [← h2])

/-- C4 witness: a concrete successful load with an optimizer returns the
metadata. -/
theorem C4_witness :
    (load_ckpt "p"
        (some [("state_dict", CVal.dict [("w", 5)]),
               ("optimizer", CVal.scalar 0),
               ("epoch", CVal.scalar 3),
               ("best_prec1", CVal.scalar 9)])
        [("w", 0)] [] true (some 1) =
      Except.ok ([("w", 5)], some (CVal.scalar 3, CVal.scalar 9))) ∧
    (some (CVal.scalar 3, CVal.scalar 9) : Option (CVal × CVal)).isSome =
      (some 1 : Option Nat).isSome :=
  ⟨rfl, C4_metadata_iff_optimizer "p"
    (some [("state_dict", CVal.dict [("w", 5)]),
           ("optimizer", CVal.scalar 0),
           ("epoch", CVal.scalar 3),
           ("best_prec1", CVal.scalar 9)])
    [("w", 0)] [] true (some 1) [("w", 5)]
    (some (CVal.scalar 3, CVal.scalar 9)) rfl⟩

/-- C3: for `load_ckpt` (with no optimizer, as mandated when `ignores` is
non-empty) and for `simplify_ckpt`, an ignore name absent from the
checkpoint's state_dict makes the operation fail with a lookup error
naming the missing key, and when every ignore name is present the ignored
keys are removed from state_dict before the checkpoint is applied
(`load_state_dict` receives the filtered dict) or re-saved. -/
theorem C3_ignore_lookup_contract (path opath : String) (ckpt : Ckpt)
    (sd model : StateDict) (strict : Bool) (ignores : List String)
    (hsd : ckpt.lookup "state_dict" = some (CVal.dict sd))
    (hnd : ignores.Nodup) :
    ((∃ ig ∈ ignores, ig ∉ sdKeys sd) →
      ∃ k, k ∈ ignores ∧ k ∉ sdKeys sd ∧
        load_ckpt path (some ckpt) model ignores strict none =
          Except.error (Err.cannotFind k) ∧
        simplify_ckpt path (some ckpt) opath ignores =
          Except.error (Err.cannotFind k)) ∧
    ((∀ ig ∈ ignores, ig ∈ sdKeys sd) →
      load_ckpt path (some ckpt) model ignores strict none =
        (match load_state_dict model
            (sd.filter (fun p => p.1 ∉ ignores)) strict with
         | Except.error e => Except.error e
         | Except.ok m2 => Except.ok (m2, none)) ∧
      ∃ out c2, simplify_ckpt path (some ckpt) opath ignores =
          Except.ok (out, c2) ∧
        c2.lookup "state_dict" =
          some (CVal.dict (sd.filter (fun p => p.1 ∉ ignores)))) := by
  have hget : ckptGetDict ckpt "state_dict" = Except.ok sd :=
    ckptGetDict_of_lookup ckpt sd hsd
  have hlook2 : (ckpt.filter (fun p => p.1 = "state_dict")).lookup
      "state_dict" = some (CVal.dict sd) := by
    rw [lookup_filter_key]; exact hsd
  have hget2 : ckptGetDict (ckpt.filter (fun p => p.1 = "state_dict"))
      "state_dict" = Except.ok sd := ckptGetDict_of_lookup _ sd hlook2
  constructor
  · intro hbad
    obtain ⟨k, hk1, hk2, hk3⟩ :=
      dropIgnores_missing ignores sd (sdKeys sd) hnd (fun _ _ h => h) hbad
    have hne : ignores ≠ [] := by
      obtain ⟨ig, hig, _⟩ := hbad
      exact fun he => by simp [he] at hig
    have hlen : ignores.length > 0 := List.length_pos.mpr hne
    refine ⟨k, hk1, hk2, ?_, ?_⟩
    · simp [load_ckpt, hlen, hget, hk3]
    · simp [simplify_ckpt, hget2, hk3]
  · intro hall
    have hdrop := dropIgnores_ok ignores sd (sdKeys sd) hnd
      (fun ig h => hall ig h) hall
    constructor
    · by_cases hig : ignores = []
      · subst hig
        simp [load_ckpt, hget]
      · have hlen : ignores.length > 0 := List.length_pos.mpr hig
        have hset : (ckptSetDict ckpt
            (sd.filter (fun p => p.1 ∉ ignores))).lookup "state_dict" =
            some (CVal.dict (sd.filter (fun p => p.1 ∉ ignores))) :=
          lookup_ckptSetDict ckpt _ (by simp [hsd])
        have hget3 := ckptGetDict_of_lookup _ _ hset
        simp only [decide_not] at hget3
        simp [load_ckpt, hlen, hget, hdrop, hget3]
    · refine ⟨(if opath = "" then path ++ "_simplified" else opath),
        ckptSetDict (ckpt.filter (fun p => p.1 = "state_dict"))
          (sd.filter (fun p => p.1 ∉ ignores)), ?_, ?_⟩
      · simp [simplify_ckpt, hget2, hdrop]
      · exact lookup_ckptSetDict _ _ (by simp [hlook2])

/-- C3 witness. -/
theorem C3_witness :
    ((∃ ig ∈ (["a"] : List String), ig ∉ sdKeys [("a", 1)]) →
      ∃ k, k ∈ (["a"] : List String) ∧ k ∉ sdKeys [("a", 1)] ∧
        load_ckpt "p" (some [("state_dict", CVal.dict [("a", 1)])]) []
            ["a"] true none =
          Except.error (Err.cannotFind k) ∧
        simplify_ckpt "p" (some [("state_dict", CVal.dict [("a", 1)])])
            "" ["a"] =
          Except.error (Err.cannotFind k)) ∧
    ((∀ ig ∈ (["a"] : List String), ig ∈ sdKeys [("a", 1)]) →
      load_ckpt "p" (some [("state_dict", CVal.dict [("a", 1)])]) []
          ["a"] true none =
        (match load_state_dict []
            (([("a", 1)] : StateDict).filter
              (fun p => p.1 ∉ (["a"] : List String))) true with
         | Except.error e => Except.error e
         | Except.ok m2 => Except.ok (m2, none)) ∧
      ∃ out c2, simplify_ckpt "p"
          (some [("state_dict", CVal.dict [("a", 1)])]) "" ["a"] =
          Except.ok (out, c2) ∧
        c2.lookup "state_dict" =
          some (CVal.dict (([("a", 1)] : StateDict).filter
            (fun p => p.1 ∉ (["a"] : List String))))) :=
  C3_ignore_lookup_contract "p" "" [("state_dict", CVal.dict [("a", 1)])]
    [("a", 1)] [] true ["a"] rfl (by decide)

/-- C7: for an existing checkpoint with unique top-level keys whose
state_dict contains every ignored name, `simplify_ckpt` writes a
checkpoint whose only entry is `state_dict` (optimizer, epoch and
best_prec1 are discarded) with the ignored keys removed, to `opath`, or
to `path ++ "_simplified"` when `opath` is unspecified (empty). -/
theorem C7_simplify_strips (path opath : String) (ckpt : Ckpt)
    (sd : StateDict) (ignores : List String)
    (hkeys : (ckpt.map Prod.fst).Nodup)
    (hsd : ckpt.lookup "state_dict" = some (CVal.dict sd))
    (hnd : ignores.Nodup)
    (hall : ∀ ig ∈ ignores, ig ∈ sdKeys sd) :
    simplify_ckpt path (some ckpt) opath ignores =
      Except.ok ((if opath = "" then path ++ "_simplified" else opath),
        [("state_dict", CVal.dict
          (sd.filter (fun p => p.1 ∉ ignores)))]) := by
  have hfil := filter_key_nodup_eq ckpt "state_dict" (CVal.dict sd) hkeys hsd
  have hdrop := dropIgnores_ok ignores sd (sdKeys sd) hnd
    (fun ig h => hall ig h) hall
  simp [simplify_ckpt, hfil, ckptGetDict, List.lookup_cons, hdrop,
    ckptSetDict]

/-- C7 witness. -/
theorem C7_witness :
    simplify_ckpt "p"
        (some [("state_dict", CVal.dict [("a", 1), ("b", 2)]),
               ("epoch", CVal.scalar 3)]) "" ["a"] =
      Except.ok ((if ("" : String) = "" then "p" ++ "_simplified" else ""),
        [("state_dict", CVal.dict
          (([("a", 1), ("b", 2)] : StateDict).filter
            (fun p => p.1 ∉ (["a"] : List String))))]) :=
  C7_simplify_strips "p" ""
    [("state_dict", CVal.dict [("a", 1), ("b", 2)]),
     ("epoch", CVal.scalar 3)]
    [("a", 1), ("b", 2)] ["a"] (by decide) rfl (by decide) (by decide)

/-! ### Claim theorems: feature-vector binary I/O -/

lemma chunkList_cons {α : Type} (n : Nat) (l : List α) (hn : n ≠ 0)
    (hl : l ≠ []) :
    chunkList n l = l.take n :: chunkList n (l.drop n) := by
  cases l with
  | nil => exact absurd rfl hl
  | cons x xs => rw [chunkList, if_neg hn]

lemma flatten_length_of_uniform {α : Type} (M : List (List α)) (d : Nat)
    (hdim : ∀ row ∈ M, row.length = d) :
    M.flatten.length = M.length * d := by
  induction M with
  | nil => simp
  | cons r rs ih =>
    simp only [List.flatten_cons, List.length_append, List.length_cons]
    rw [hdim r (by simp), ih (fun row h => hdim row (by simp [h]))]
    ring

lemma chunkList_flatten {α : Type} (M : List (List α)) (d : Nat)
    (hd : 0 < d) (hdim : ∀ row ∈ M, row.length = d) :
    chunkList d M.flatten = M := by
  induction M with
  | nil => simp [chunkList]
  | cons r rs ih =>
    have hr : r.length = d := hdim r (by simp)
    have hrne : r ≠ [] := by
      intro h
      rw [h] at hr
      simp at hr
      omega
    have hne : r ++ rs.flatten ≠ [] := by
      intro h
      exact hrne (List.append_eq_nil.mp h).1
    have ht : (r ++ rs.flatten).take d = r := by
      rw [← hr]
      exact List.take_left r rs.flatten
    have hdr : (r ++ rs.flatten).drop d = rs.flatten := by
      rw [← hr]
      exact List.drop_left r rs.flatten
    rw [List.flatten_cons, chunkList_cons d _ (by omega) hne, ht, hdr,
      ih (fun row h => hdim row (by simp [h]))]

/-- C1: writing a matrix of shape `(inst_num, feat_dim)` with `write_feat`
and reading it back with `read_feat` and the same counts (for
`inst_num > 0`, `feat_dim > 1`) returns the original matrix. -/
theorem C1_feat_round_trip {α : Type} (M : List (List α))
    (inst_num feat_dim : Int) (h1 : 0 < inst_num) (h2 : 1 < feat_dim)
    (hrows : M.length = inst_num.toNat)
    (hdim : ∀ row ∈ M, row.length = feat_dim.toNat) :
    read_feat (write_feat M) inst_num feat_dim =
      Except.ok (NDArr.mat M) := by
  have hd0 : (0 : Int) < feat_dim := by omega
  have hdn : 0 < feat_dim.toNat := by omega
  have hflen : (write_feat M).length = inst_num.toNat * feat_dim.toNat := by
    rw [write_feat, flatten_length_of_uniform M feat_dim.toNat hdim, hrows]
  have hcount : (inst_num * feat_dim).toNat =
      inst_num.toNat * feat_dim.toNat := by
    rw [← Int.toNat_of_nonneg h1.le, ← Int.toNat_of_nonneg hd0.le,
      ← Nat.cast_mul, Int.toNat_natCast, Int.toNat_natCast,
      Int.toNat_natCast]
  have hnonneg : ¬(inst_num * feat_dim < 0) := by
    push_neg
    exact mul_nonneg h1.le hd0.le
  rw [read_feat, if_neg (not_not_intro ⟨Or.inl h1, hd0⟩)]
  simp only [if_pos h1, if_pos h2]
  rw [np_fromfile, if_neg hnonneg, hcount, ← hflen, List.take_length]
  have hne : inst_num ≠ -1 := by omega
  rw [np_reshape2, if_neg hne,
    if_pos ⟨h1.le, hd0, by rw [hflen]⟩]
  rw [write_feat, chunkList_flatten M feat_dim.toNat hdn hdim]

/-- C1 witness. -/
theorem C1_witness :
    read_feat (write_feat [[(1 : Int), 2], [3, 4]]) 2 2 =
      Except.ok (NDArr.mat [[(1 : Int), 2], [3, 4]]) :=
  C1_feat_round_trip [[(1 : Int), 2], [3, 4]] 2 2 (by norm_num)
    (by norm_num) (by decide) (by decide)

/-- C6 counterexample: with `inst_num = 2 > 0`, `feat_dim = 1 > 0` and a
file holding only one element (fewer than `2 * 1`), `read_feat` does not
fail — `np.fromfile` silently returns the available elements and no
reshape checks the count — refuting the claim as stated. -/
theorem C6_counterexample :
    (0 : Int) < 2 ∧ (0 : Int) < 1 ∧
    ([(5 : Int)] : List Int).length < 2 * 1 ∧
    read_feat ([(5 : Int)] : List Int) 2 1 = Except.ok (NDArr.vec [5]) :=
  ⟨by norm_num, by norm_num, by norm_num, rfl⟩

/-- C6 (amended): for `inst_num > 0` and a file with fewer than
`inst_num * feat_dim` elements, `read_feat` fails when `feat_dim > 1`
(the reshape raises ValueError), but when `feat_dim = 1` it silently
returns the elements actually present. -/
theorem C6_short_file (α : Type) (file : List α) (inst_num feat_dim : Int)
    (h1 : 0 < inst_num)
    (hshort : file.length < inst_num.toNat * feat_dim.toNat) :
    (1 < feat_dim →
      read_feat file inst_num feat_dim =
        Except.error (Err.valueError "cannot reshape")) ∧
    (feat_dim = 1 →
      read_feat file inst_num feat_dim = Except.ok (NDArr.vec file)) := by
  constructor
  · intro h2
    have hd0 : (0 : Int) < feat_dim := by omega
    have hcount : (inst_num * feat_dim).toNat =
        inst_num.toNat * feat_dim.toNat := by
      rw [← Int.toNat_of_nonneg h1.le, ← Int.toNat_of_nonneg hd0.le,
        ← Nat.cast_mul, Int.toNat_natCast, Int.toNat_natCast,
        Int.toNat_natCast]
    have hnonneg : ¬(inst_num * feat_dim < 0) := by
      push_neg
      exact mul_nonneg h1.le hd0.le
    rw [read_feat, if_neg (not_not_intro ⟨Or.inl h1, hd0⟩)]
    simp only [if_pos h1, if_pos h2]
    rw [np_fromfile, if_neg hnonneg, hcount,
      List.take_of_length_le (by omega)]
    have hne : inst_num ≠ -1 := by omega
    rw [np_reshape2, if_neg hne, if_neg (by omega)]
  · intro h2
    subst h2
    have hcount : (inst_num * 1).toNat = inst_num.toNat := by
      rw [mul_one]
    have hnonneg : ¬(inst_num * 1 < 0) := by omega
    have hs2 : file.length < inst_num.toNat := by simpa using hshort
    rw [read_feat, if_neg (not_not_intro ⟨Or.inl h1, by norm_num⟩)]
    simp only [if_pos h1]
    rw [np_fromfile, if_neg hnonneg, hcount,
      List.take_of_length_le (by omega)]
    norm_num

/-- C6 witness (for the amended theorem). -/
theorem C6_witness :
    ((1 : Int) < 2 →
      read_feat ([(5 : Int)] : List Int) 2 2 =
        Except.error (Err.valueError "cannot reshape")) ∧
    ((2 : Int) = 1 →
      read_feat ([(5 : Int)] : List Int) 2 2 =
        Except.ok (NDArr.vec [5])) :=
  C6_short_file Int [(5 : Int)] 2 2 (by norm_num) (by decide)

/-! ### Claim theorems: AverageMeter -/

lemma lastN_of_le {α : Type} (n : Nat) (l : List α) (h : l.length ≤ n) :
    lastN n l = l := by
  unfold lastN
  rw [Nat.sub_eq_zero_of_le h, List.drop_zero]

lemma lastN_length {α : Type} (n : Nat) (l : List α) :
    (lastN n l).length = min n l.length := by
  unfold lastN
  rw [List.length_drop]
  omega

lemma lastN_lastN_append {α : Type} (n : Nat) (p : List α) (v : α)
    (hn : 0 < n) :
    lastN n (lastN n p ++ [v]) = lastN n (p ++ [v]) := by
  by_cases h : p.length ≤ n
  · rw [lastN_of_le n p h]
  · push_neg at h
    have hA : (p.drop (p.length - n)).length = n := by
      rw [List.length_drop]
      omega
    calc lastN n (lastN n p ++ [v])
        = (p.drop (p.length - n) ++ [v]).drop
            ((p.drop (p.length - n) ++ [v]).length - n) := rfl
      _ = (p.drop (p.length - n) ++ [v]).drop 1 := by
            rw [List.length_append, hA]
            congr 1
            simp
      _ = (p.drop (p.length - n)).drop 1 ++ [v] :=
            List.drop_append_of_le_length (by rw [hA]; omega)
      _ = p.drop (p.length - n + 1) ++ [v] := by rw [List.drop_drop]
      _ = (p ++ [v]).drop (p.length - n + 1) :=
            (List.drop_append_of_le_length (by omega)).symm
      _ = lastN n (p ++ [v]) := by
            unfold lastN
            congr 1
            rw [List.length_append]
            simp
            omega

lemma getLast?_lastN_append {α : Type} (n : Nat) (l : List α) (v : α)
    (hn : 0 < n) :
    (lastN n (l ++ [v])).getLast? = some v := by
  unfold lastN
  simp only [List.length_append, List.length_singleton]
  rw [List.drop_append_of_le_length (by omega)]
  exact List.getLast?_concat _

/-- One `update` call, under the invariant, retains the last `length`
values and sets `val` to the new value. -/
lemma update_spec (m : AverageMeter) (v : ℚ) (hn : 0 < m.length)
    (hh : m.history.length ≤ m.length) :
    m.update v = some { m with
      history := lastN m.length (m.history ++ [v]),
      val := v,
      avg := npMean (lastN m.length (m.history ++ [v])) } := by
  have he : (if (m.history ++ [v]).length > m.length
        then (m.history ++ [v]).tail else (m.history ++ [v])) =
      lastN m.length (m.history ++ [v]) := by
    by_cases hc : (m.history ++ [v]).length > m.length
    · rw [if_pos hc]
      unfold lastN
      have : (m.history ++ [v]).length - m.length = 1 := by
        rw [List.length_append] at hc ⊢
        simp only [List.length_singleton] at hc ⊢
        omega
      rw [this, List.drop_one]
    · rw [if_neg hc]
      push_neg at hc
      rw [lastN_of_le _ _ hc]
  simp only [AverageMeter.update]
  rw [he, getLast?_lastN_append m.length m.history v hn]

/-- Running `runUpdates` from a state whose history is the last-`length`
window of some pushed prefix `p` succeeds and maintains the window. -/
lemma runUpdates_spec (vs : List ℚ) (m : AverageMeter) (p : List ℚ)
    (hn : 0 < m.length) (hp : m.history = lastN m.length p) :
    ∃ m2, runUpdates m vs = some m2 ∧
      m2.length = m.length ∧
      m2.history = lastN m.length (p ++ vs) ∧
      (vs = [] → m2 = m) ∧
      (vs ≠ [] → some m2.val = vs.getLast? ∧
        m2.avg = npMean (lastN m.length (p ++ vs))) := by
  induction vs generalizing m p with
  | nil =>
    exact ⟨m, rfl, rfl, by simpa using hp, fun _ => rfl,
      fun h => absurd rfl h⟩
  | cons v rest ih =>
    have hh : m.history.length ≤ m.length := by
      rw [hp, lastN_length]
      omega
    have hupd := update_spec m v hn hh
    have hm1hist : lastN m.length (m.history ++ [v]) =
        lastN m.length (p ++ [v]) := by
      rw [hp]
      exact lastN_lastN_append m.length p v hn
    obtain ⟨m2, hrun, hlen, hhist, hnil', hcons'⟩ :=
      ih ⟨m.length, lastN m.length (m.history ++ [v]), v,
          npMean (lastN m.length (m.history ++ [v]))⟩
        (p ++ [v]) hn (by simpa using hm1hist)
    refine ⟨m2, ?_, hlen, ?_, ?_, ?_⟩
    · rw [runUpdates, hupd]
      exact hrun
    · rw [hhist, List.append_assoc, List.singleton_append]
    · intro h
      exact absurd h (List.cons_ne_nil v rest)
    · intro _
      cases rest with
      | nil =>
        have hm2 : m2 = ⟨m.length, lastN m.length (m.history ++ [v]), v,
            npMean (lastN m.length (m.history ++ [v]))⟩ :=
          hnil' rfl
        refine ⟨by rw [hm2]; rfl, ?_⟩
        rw [hm2]
        show npMean (lastN m.length (m.history ++ [v])) = _
        rw [hm1hist]
      | cons a as =>
        obtain ⟨hval, havg⟩ := hcons' (List.cons_ne_nil a as)
        refine ⟨by rw [hval, List.getLast?_cons_cons], ?_⟩
        rw [havg, List.append_assoc, List.singleton_append]

/-- C8: for `length ≥ 1` and any `length + k` pushed values, the final
history holds exactly the last `length` values, `val` is the last value
pushed, `avg` is their arithmetic mean, and each update preserves the
bounded-history invariant. -/
theorem C8_average_meter (length k : Nat) (vs : List ℚ)
    (h1 : 1 ≤ length) (h2 : vs.length = length + k) :
    (∃ m, runUpdates (AverageMeter.mk0 length) vs = some m ∧
      m.history = vs.drop k ∧
      m.history.length = length ∧
      some m.val = vs.getLast? ∧
      m.avg = npMean (vs.drop k)) ∧
    (∀ (m : AverageMeter) (v : ℚ) (m2 : AverageMeter),
      m.history.length ≤ m.length → m.update v = some m2 →
      m2.history.length ≤ m2.length) := by
  constructor
  · have hvne : vs ≠ [] := by
      intro h
      rw [h] at h2
      simp at h2
      omega
    obtain ⟨m2, hrun, hlen, hhist, _, hcons⟩ :=
      runUpdates_spec vs (AverageMeter.mk0 length) []
        (by simpa [AverageMeter.mk0] using h1)
        (by simp [AverageMeter.mk0, lastN])
    have hdrop : lastN length vs = vs.drop k := by
      unfold lastN
      rw [h2]
      congr 1
      omega
    obtain ⟨hval, havg⟩ := hcons hvne
    have hh2 : m2.history = vs.drop k := by
      rw [hhist]
      show lastN length ([] ++ vs) = _
      rw [List.nil_append, hdrop]
    refine ⟨m2, hrun, hh2, ?_, hval, ?_⟩
    · rw [hh2, List.length_drop, h2]
      omega
    · rw [havg]
      show npMean (lastN length ([] ++ vs)) = _
      rw [List.nil_append, hdrop]
  · intro m v m2 hle hupd
    simp only [AverageMeter.update] at hupd
    split at hupd
    · exact absurd hupd (by simp)
    · injection hupd with hupd
      subst hupd
      dsimp only
      split
      · simp only [List.length_tail, List.length_append,
          List.length_singleton]
        omega
      · simp_all [List.length_append]

/-- C8 witness. -/
theorem C8_witness :
    (∃ m, runUpdates (AverageMeter.mk0 2) [1, 2, 3] = some m ∧
      m.history = ([1, 2, 3] : List ℚ).drop 1 ∧
      m.history.length = 2 ∧
      some m.val = ([1, 2, 3] : List ℚ).getLast? ∧
      m.avg = npMean (([1, 2, 3] : List ℚ).drop 1)) ∧
    (∀ (m : AverageMeter) (v : ℚ) (m2 : AverageMeter),
      m.history.length ≤ m.length → m.update v = some m2 →
      m2.history.length ≤ m2.length) :=
  C8_average_meter 2 1 [1, 2, 3] (by norm_num) (by norm_num)

/-! ### Claim theorems: normalize and save_imgs (the stray for-else) -/

/-- C9: evaluating `normalize` (with a stand-in for `np.linalg.norm`):
for a 2-D input and axis 2 the code returns Python `None` instead of
raising the TypeError the spec promises — the `raise` intended for this
branch is stranded in `save_imgs` — while axes 0 and 1 divide by the
per-column and per-row norms and a 1-D input ignores the axis. -/
theorem C9_normalize_bad_axis_returns_none :
    normalize (fun v : List ℚ => v.sum) (NDArr.mat [[1, 2], [3, 4]]) 2 =
      none ∧
    normalize (fun v : List ℚ => v.sum) (NDArr.mat [[1, 2], [3, 4]])
      (-3) = none ∧
    normalize (fun v : List ℚ => v.sum) (NDArr.vec [3, 1]) 7 =
      some (NDArr.vec [3 / 4, 1 / 4]) ∧
    normalize (fun v : List ℚ => v.sum) (NDArr.mat [[1, 3], [3, 1]]) 0 =
      some (NDArr.mat [[1 / 4, 3 / 4], [3 / 4, 1 / 4]]) ∧
    normalize (fun v : List ℚ => v.sum) (NDArr.mat [[1, 3], [1, 4]]) 1 =
      some (NDArr.mat [[1 / 4, 3 / 4], [1 / 5, 4 / 5]]) := by
  refine ⟨rfl, rfl, ?_, ?_, ?_⟩ <;>
    simp [normalize, np_transpose] <;> norm_num

/-- C10: `save_imgs` does write image `i` to `folder/i.jpg` (0-based,
insertion order), but it never completes successfully: the `for` loop's
stray `else` clause always runs after the loop and raises (its
`TypeError(...)` call references the undefined name `axis`, so the call
dies with a NameError), for empty and non-empty image lists alike. -/
theorem C10_save_imgs_always_raises :
    (∀ (imgs : List Nat) (folder : String),
      (save_imgs imgs folder).2 =
        some "NameError: name axis is not defined") ∧
    (save_imgs [10, 20] "d").1 = [("d/0.jpg", 10), ("d/1.jpg", 20)] :=
  ⟨fun _ _ => rfl, rfl⟩

end HFSoftmax
